import Mathlib

/-!
Shallow embedding of `log_analyzer.py` (nginx access-log analyzer) and
verification of its specification.

Numeric values (request durations, percentages) are modelled as exact
rationals `ℚ`; Python `float` arithmetic is abstracted to exact arithmetic.
Python exceptions are modelled by explicit result constructors
(`Except.error`, `Option.none`, dedicated constructors), as noted at each
definition.  Strings are ASCII; Python `\w` is modelled as
ASCII alphanumerics plus underscore.
-/

namespace LogAnalyzer

/-! ### Calendar dates (`datetime.date`) -/

/-- A calendar date, as produced by `datetime.datetime.strptime(s, "%Y%m%d").date()`. -/
structure Date where
  year : ℕ
  month : ℕ
  day : ℕ
deriving DecidableEq, Repr

/-- Lexicographic order on dates: Python `date` comparison `f_date > min_date`. -/
def dateLt (a b : Date) : Prop :=
  a.year < b.year ∨ (a.year = b.year ∧
    (a.month < b.month ∨ (a.month = b.month ∧ a.day < b.day)))

instance (a b : Date) : Decidable (dateLt a b) := by
  unfold dateLt; exact inferInstance

/-- Non-strict date order, used to state maximality. -/
def dateLe (a b : Date) : Prop := dateLt a b ∨ a = b

instance (a b : Date) : Decidable (dateLe a b) := by
  unfold dateLe; exact inferInstance

theorem dateLt_total (a b : Date) : dateLt a b ∨ dateLe b a := by
  obtain ⟨x, y, z⟩ := a; obtain ⟨u, v, w⟩ := b
  simp only [dateLt, dateLe, Date.mk.injEq]
  omega

theorem dateLe_trans {a b c : Date} (h1 : dateLe a b) (h2 : dateLe b c) :
    dateLe a c := by
  obtain ⟨x, y, z⟩ := a; obtain ⟨u, v, w⟩ := b; obtain ⟨p, q, r⟩ := c
  simp only [dateLt, dateLe, Date.mk.injEq] at h1 h2 ⊢
  omega

theorem dateLt_le {a b : Date} (h : dateLt a b) : dateLe a b := Or.inl h

/-- Gregorian leap year, as in Python's `calendar`/`datetime` validation. -/
def isLeap (y : ℕ) : Bool := y % 4 == 0 && (y % 100 != 0 || y % 400 == 0)

/-- Days in a month, per `datetime` date validation. -/
def daysInMonth (y m : ℕ) : ℕ :=
  if m = 2 then (if isLeap y then 29 else 28)
  else if m = 4 ∨ m = 6 ∨ m = 9 ∨ m = 11 then 30
  else 31

/-- `datetime.date` accepts years 1..9999, months 1..12, days 1..last day. -/
def validDate (y m d : ℕ) : Bool :=
  decide (1 ≤ y) && decide (y ≤ 9999) && decide (1 ≤ m) && decide (m ≤ 12) &&
  decide (1 ≤ d) && decide (d ≤ daysInMonth y m)

/-- Value of a decimal digit string (most significant first). -/
def digitsToNat (ds : List Char) : ℕ :=
  ds.foldl (fun a c => 10 * a + (c.toNat - 48)) 0

/-- `datetime.datetime.strptime(s, "%Y%m%d").date()`: parses an 8-digit
string into a date; `none` models the `ValueError` raised on a malformed
or non-calendar-valid string. -/
def parseDate (s : String) : Option Date :=
  let cs := s.toList
  if cs.length = 8 ∧ cs.all Char.isDigit then
    let y := digitsToNat (cs.take 4)
    let m := digitsToNat ((cs.drop 4).take 2)
    let d := digitsToNat (cs.drop 6)
    if validDate y m d then some ⟨y, m, d⟩ else none
  else none

/-- Zero-pad the decimal representation of `n` to width `w`. -/
def padNum (w : ℕ) (n : ℕ) : String :=
  let s := toString n
  String.mk (List.replicate (w - s.length) '0') ++ s

/-- `date.strftime("%Y.%m.%d")`. -/
def formatDate (d : Date) : String :=
  padNum 4 d.year ++ "." ++ padNum 2 d.month ++ "." ++ padNum 2 d.day

/-! ### LogLocator (`find_latest_log`) -/

/-- The `LogFileEntry` namedtuple built in `find_latest_log`. -/
structure LogFileEntry where
  path : String
  name : String
  ext : Option String
  date : Date
deriving DecidableEq, Repr

/-- The anchored regex `^nginx-access-ui\.log-(\d{8})(\.gz)?$`: on a full
match returns (group 1 = the 8 digit date field, group 2 = the optional
`".gz"` suffix); `none` when the file name does not match. -/
def matchLogName (name : String) : Option (String × Option String) :=
  let cs := name.toList
  let pre := "nginx-access-ui.log-".toList
  if cs.take pre.length = pre then
    let rest := cs.drop pre.length
    let ds := rest.take 8
    if ds.length = 8 ∧ ds.all Char.isDigit then
      match rest.drop 8 with
      | [] => some (String.mk ds, none)
      | tail => if tail = ['.', 'g', 'z'] then some (String.mk ds, some ".gz")
                else none
    else none
  else none

/-- The loop of `find_latest_log` over `os.listdir(log_dir)`.  State:
`minD` is the running maximum date (initially `datetime.min.date()`),
`found` the current best entry.  `Except.error ()` models the `ValueError`
raised by `strptime` on a pattern-matching file whose 8 digits are not a
valid calendar date (the loop has no handler for it). -/
def findLatestAux (logDir : String) :
    List String → Date → Option LogFileEntry → Except Unit (Option LogFileEntry)
  | [], _, found => .ok found
  | f :: fs, minD, found =>
    match matchLogName f with
    | none => findLatestAux logDir fs minD found
    | some (d8, ext) =>
      match parseDate d8 with
      | none => .error ()
      | some dt =>
        if dateLt minD dt then
          findLatestAux logDir fs dt (some ⟨logDir ++ "/" ++ f, f, ext, dt⟩)
        else
          findLatestAux logDir fs minD found

/-- `find_latest_log(log_dir)`, over an explicit directory listing.
`datetime.datetime.min.date()` is `0001-01-01`. -/
def find_latest_log (logDir : String) (listing : List String) :
    Except Unit (Option LogFileEntry) :=
  findLatestAux logDir listing ⟨1, 1, 1⟩ none

/-- Dates embedded in the pattern-matching, date-valid file names of a listing. -/
def matchDates (listing : List String) : List Date :=
  listing.filterMap (fun f => (matchLogName f).bind (fun pr => parseDate pr.1))

/-- Every pattern-matching file name in the listing carries a valid calendar date. -/
def allValidB (listing : List String) : Bool :=
  listing.all (fun f =>
    match matchLogName f with
    | none => true
    | some pr => (parseDate pr.1).isSome)

/-- A well-formed result entry of `find_latest_log`: its name matches the
pattern, its date is the one embedded in its name, its extension is the
matched suffix and its path is `os.path.join(log_dir, name)`. -/
def GoodEntry (logDir : String) (e : LogFileEntry) : Prop :=
  ∃ d8 ext, matchLogName e.name = some (d8, ext) ∧ parseDate d8 = some e.date ∧
    e.ext = ext ∧ e.path = logDir ++ "/" ++ e.name

/-! ### LineExtractor: the two regexes of `process_log` -/

/-- Python `\w` (ASCII): letters, digits, underscore. -/
def isWordChar (c : Char) : Bool := c.isAlphanum || c == '_'

/-- The character class `[\w?=_&-]` of the url regex. -/
def isUrlChar (c : Char) : Bool :=
  isWordChar c || c == '?' || c == '=' || c == '&' || c == '-'

/-- `re.findall(r"\d+\.\d+$", line)[0]`: the leftmost match of an
end-anchored `digits.digits` token, i.e. the longest suffix of the line of
that shape, returned as (integer part digits, fractional part digits);
`none` when the line has no such suffix. -/
def extract_time_digits (line : List Char) : Option (List Char × List Char) :=
  let r := line.reverse
  let b := r.takeWhile Char.isDigit
  if b.isEmpty then none
  else
    match r.drop b.length with
    | '.' :: rest =>
      let a := rest.takeWhile Char.isDigit
      if a.isEmpty then none else some (a.reverse, b.reverse)
    | _ => none

/-- `float(time)` of a matched `a.b` duration token, as an exact rational. -/
def timeValue (a b : List Char) : ℚ :=
  (digitsToNat a : ℚ) + (digitsToNat b : ℚ) / ((10 : ℚ) ^ b.length)

/-- The extracted duration of a line, if any. -/
def extract_time (line : String) : Option ℚ :=
  (extract_time_digits line.toList).map (fun pr => timeValue pr.1 pr.2)

/-- The greedy body `(?:/(?:[\w?=_&-]+))+` of the url regex: consumes the
longest run of `/segment` groups at the head of the character list,
returning the consumed characters (empty when no group matches).  The
fuel argument (instantiated with the list length, ample since every group
consumes at least two characters) only makes the recursion structural. -/
def urlGroups : ℕ → List Char → List Char
  | 0, _ => []
  | fuel + 1, l =>
    match l with
    | '/' :: rest =>
      let seg := rest.takeWhile isUrlChar
      if seg.isEmpty then []
      else '/' :: seg ++ urlGroups fuel (rest.drop seg.length)
    | _ => []

/-- The scan of `re.findall(url_regexp, line)`: at each position a match is
attempted; `\B` holds at the start of a candidate `/...` match iff the
previous character (when any) is not a word character.  Returns the
leftmost (first) match. -/
def findUrl : Option Char → List Char → Option (List Char)
  | _, [] => none
  | prev, c :: rest =>
    if c = '/' ∧ (match prev with | none => true | some p => !isWordChar p) = true
        ∧ ¬(rest.takeWhile isUrlChar).isEmpty then
      some (urlGroups (rest.length + 1) (c :: rest))
    else
      findUrl (some c) rest

/-- `re.findall(url_regexp, line)[0]` with
`url_regexp = r"\B(?:/(?:[\w?=_&-]+))+"`: the leftmost url token. -/
def extract_url (line : String) : Option String :=
  (findUrl none line.toList).map String.mk

/-! ### `process_log`: streaming extraction with the error-rate gate -/

/-- `raw_data[url].append(t)` on a `defaultdict(list)`: appends to the list
of an existing key, else appends a fresh `(url, [t])` entry at the end
(dict insertion order). -/
def rawInsert (raw : List (String × List ℚ)) (url : String) (t : ℚ) :
    List (String × List ℚ) :=
  match raw with
  | [] => [(url, [t])]
  | (u, ts) :: rest =>
    if u = url then (u, ts ++ [t]) :: rest else (u, ts) :: rawInsert rest url t

/-- Total number of samples across all endpoints
(`sum([len(i) for i in raw_data.values()])`). -/
def sumLens (raw : List (String × List ℚ)) : ℕ :=
  (raw.map (fun p => p.2.length)).sum

/-- Total latency across all endpoints
(`sum([sum(i) for i in raw_data.values()])`). -/
def rawSumTime (raw : List (String × List ℚ)) : ℚ :=
  (raw.map (fun p => p.2.sum)).sum

/-- One iteration of the `process_log` loop: state is
(raw_data, lines_parsed, lines_count). -/
def plStep (acc : List (String × List ℚ) × ℕ × ℕ) (line : String) :
    List (String × List ℚ) × ℕ × ℕ :=
  match extract_url line, extract_time line with
  | some u, some t => (rawInsert acc.1 u t, acc.2.1 + 1, acc.2.2 + 1)
  | some _, none => (acc.1, acc.2.1, acc.2.2 + 1)
  | none, _ => (acc.1, acc.2.1, acc.2.2 + 1)

/-- The whole loop of `process_log` over the reader's lines. -/
def pl_fold (lines : List String) : List (String × List ℚ) × ℕ × ℕ :=
  lines.foldl plStep ([], 0, 0)

/-- Result of `process_log`.  `divByZero` models the uncaught
`ZeroDivisionError` of `100*lines_parsed/lines_count` when no line was
read; `thresholdExceeded` models the `return None` taken when
`errors_percent > max_errors_percent`. -/
inductive PLResult where
  | divByZero
  | thresholdExceeded
  | ok (raw : List (String × List ℚ))
deriving DecidableEq, Repr

/-- `process_log(log_file_entry, max_errors_percent)` over the lines
yielded by the reader. -/
def process_log (lines : List String) (maxErr : ℚ) : PLResult :=
  let r := pl_fold lines
  if r.2.2 = 0 then .divByZero
  else if (100 : ℚ) - 100 * (r.2.1 : ℚ) / (r.2.2 : ℚ) > maxErr then
    .thresholdExceeded
  else .ok r.1

/-- `log_reader`'s `if line:` filter: only non-empty lines are yielded. -/
def log_reader_lines (lines : List String) : List String :=
  lines.filter (fun l => !l.isEmpty)

/-! ### Aggregator (`process_raw`) -/

/-- One aggregated record of `process_raw` (and of the serialized report). -/
structure StatRow where
  url : String
  count : ℕ
  count_perc : ℚ
  time_avg : ℚ
  time_max : ℚ
  time_med : ℚ
  time_perc : ℚ
  time_sum : ℚ
deriving DecidableEq, Repr

instance decLeQRow : DecidableRel (fun a b : ℚ => a ≤ b) :=
  fun a b => inferInstanceAs (Decidable (a ≤ b))

/-- Python `max(times)` on a non-empty list (junk `0` on `[]`; every call
site is guarded, as `max([])` raises `ValueError`). -/
def pymax : List ℚ → ℚ
  | [] => 0
  | x :: xs => xs.foldl max x

/-- `statistics.median`: sort ascending; middle element for odd length,
mean of the two middle elements for even length (junk `0` on `[]`, where
Python raises `StatisticsError`; call sites are guarded). -/
def pymedian (l : List ℚ) : ℚ :=
  let s := List.insertionSort (fun a b : ℚ => a ≤ b) l
  let n := s.length
  if n = 0 then 0
  else if n % 2 = 1 then s.getD (n / 2) 0
  else (s.getD (n / 2 - 1) 0 + s.getD (n / 2) 0) / 2

/-- The record built for one endpoint in the `process_raw` loop. -/
def mkStatRow (sum_lines : ℕ) (sum_time : ℚ) (p : String × List ℚ) : StatRow :=
  { url := p.1
    count := p.2.length
    count_perc := 100 * (p.2.length : ℚ) / (sum_lines : ℚ)
    time_avg := p.2.sum / (p.2.length : ℚ)
    time_max := pymax p.2
    time_med := pymedian p.2
    time_perc := 100 * p.2.sum / sum_time
    time_sum := p.2.sum }

/-- `process_raw(raw_data)`.  `none` models the exception raised inside the
loop: `ZeroDivisionError` when `sum_lines` or `sum_time` is zero
(`count_perc` / `time_perc` divisions) and `ValueError`/`StatisticsError`
when some endpoint has an empty sample list (`max`/`median`); on an empty
dict the loop body never runs and `[]` is returned. -/
def process_raw (raw : List (String × List ℚ)) : Option (List StatRow) :=
  if raw.isEmpty then some []
  else if sumLens raw = 0 ∨ rawSumTime raw = 0 ∨ raw.any (fun p => p.2.isEmpty)
  then none
  else some (raw.map (mkStatRow (sumLens raw) (rawSumTime raw)))

/-! ### ReportWriter (`create_report`, `is_report_exsist`) -/

instance decStatRowRel :
    DecidableRel (fun a b : StatRow => b.time_sum ≤ a.time_sum) :=
  fun a b => inferInstanceAs (Decidable (b.time_sum ≤ a.time_sum))

instance instTotalStatRowRel :
    IsTotal StatRow (fun a b => b.time_sum ≤ a.time_sum) :=
  ⟨fun _ _ => le_total _ _⟩

instance instTransStatRowRel :
    IsTrans StatRow (fun a b => b.time_sum ≤ a.time_sum) :=
  ⟨fun _ _ _ h1 h2 => le_trans h2 h1⟩

/-- `sorted(clean_data, key=lambda k: k["time_sum"], reverse=True)`:
Python's sort is stable, and with `reverse=True` elements with equal keys
keep their original relative order; this is exactly stable insertion sort
with the relation "may come first": `a` before `b` iff
`b.time_sum ≤ a.time_sum`. -/
def sortDescStat (rows : List StatRow) : List StatRow :=
  List.insertionSort (fun a b => b.time_sum ≤ a.time_sum) rows

/-- The row list serialized by `create_report`:
`sorted(...)[:report_size]`. -/
def create_report_data (rows : List StatRow) (report_size : ℕ) : List StatRow :=
  (sortDescStat rows).take report_size

/-- The file name checked by `is_report_exsist`:
`"report-{}.html".format(lastdate.strftime("%Y.%m.%d"))`. -/
def report_check_name (d : Date) : String :=
  "report-" ++ formatDate d ++ ".html"

/-- The path written by `create_report`:
`"{}/report-{}.html".format(report_dir, report_date.strftime("%Y.%m.%d"))`. -/
def report_out_name (reportDir : String) (d : Date) : String :=
  reportDir ++ "/report-" ++ formatDate d ++ ".html"

/-- `is_report_exsist(report_dir, lastdate)` against an explicit set of
existing file paths (`os.path.exists`). -/
def is_report_exsist (reportDir : String) (lastdate : Date)
    (fs : List String) : Bool :=
  decide ((reportDir ++ "/" ++ report_check_name lastdate) ∈ fs)

/-! ### `main` and process-level behavior -/

/-- How one run of `main` terminates. -/
inductive MainOutcome where
  /-- `find_latest_log` returned `None`: `sys.exit(0)`. -/
  | noLogFound
  /-- `is_report_exsist` was true: `sys.exit(0)`. -/
  | reportExists
  /-- `raw_data` was falsy (`None` from the threshold gate, or an empty
  dict): `sys.exit(0)`. -/
  | exitNoRaw
  /-- An exception escaped `main` (strptime `ValueError`,
  `ZeroDivisionError`, ...), caught by the top-level handler in
  `__main__`, which logs it and falls through. -/
  | crashed
  /-- `create_report` ran and the report file was written. -/
  | completed
deriving DecidableEq, Repr

/-- Observable trace of one run of `main`: its outcome, whether
`process_raw` was invoked, and the report file (path and serialized rows)
written by `create_report`, if any. -/
structure MainRun where
  outcome : MainOutcome
  ranAggregation : Bool
  written : Option (String × List StatRow)
deriving DecidableEq, Repr

/-- One run of `main` after configuration: `listing` is the log
directory's contents, `content` the lines of each file there (by name,
decompression abstracted), `fs` the existing report file paths. -/
def main_run (listing : List String) (content : String → List String)
    (maxErr : ℚ) (reportSize : ℕ) (logDir reportDir : String)
    (fs : List String) : MainRun :=
  match find_latest_log logDir listing with
  | .error _ => ⟨.crashed, false, none⟩
  | .ok none => ⟨.noLogFound, false, none⟩
  | .ok (some e) =>
    if is_report_exsist reportDir e.date fs then ⟨.reportExists, false, none⟩
    else
      match process_log (log_reader_lines (content e.name)) maxErr with
      | .divByZero => ⟨.crashed, false, none⟩
      | .thresholdExceeded => ⟨.exitNoRaw, false, none⟩
      | .ok raw =>
        if raw.isEmpty then ⟨.exitNoRaw, false, none⟩
        else
          match process_raw raw with
          | none => ⟨.crashed, true, none⟩
          | some rows =>
            ⟨.completed, true,
              some (report_out_name reportDir e.date,
                    create_report_data rows reportSize)⟩

/-- Report files present after a run: `create_report`'s write, if any. -/
def after_run (fs : List String) (r : MainRun) : List String :=
  match r.written with
  | some pr => pr.1 :: fs
  | none => fs

/-- The process exit status for each way `main` can end.  Every
`sys.exit(0)` exits with status 0; an exception escaping `main` is caught
by `except Exception` in `__main__`, logged, and the process then ends
normally — also status 0. -/
def process_exit_code : MainOutcome → ℕ
  | .noLogFound => 0
  | .reportExists => 0
  | .exitNoRaw => 0
  | .crashed => 0
  | .completed => 0

/-! ### LogReader resource trace (`log_reader`) -/

/-- Observable actions of the `log_reader` generator. -/
inductive ReaderAction where
  | openFile
  | yieldLine (line : String)
  | closeFile
deriving DecidableEq, Repr

/-- The action trace of one invocation of `log_reader` when the caller
consumes at most `consumed` lines.  The generator body is
`open; for line in log: if line: yield line; log.close()` with no
`try/finally`: if the caller stops before exhausting the yields, the
pending `yield` is aborted (`GeneratorExit`) and the `log.close()`
statement after the loop is never reached; only when the loop runs to
completion is `close` executed. -/
def log_reader_actions (lines : List String) (consumed : ℕ) :
    List ReaderAction :=
  let ys := log_reader_lines lines
  if consumed < ys.length then
    .openFile :: (ys.take consumed).map .yieldLine
  else
    .openFile :: ys.map .yieldLine ++ [.closeFile]

/-! ### Helper lemmas -/

theorem sumLens_rawInsert (raw : List (String × List ℚ)) (u : String) (t : ℚ) :
    sumLens (rawInsert raw u t) = sumLens raw + 1 := by
  induction raw with
  | nil => simp [rawInsert, sumLens]
  | cons p rest ih =>
    obtain ⟨v, ts⟩ := p
    by_cases h : v = u
    · simp only [rawInsert, if_pos h, sumLens, List.map_cons, List.sum_cons,
        List.length_append, List.length_singleton]
      omega
    · simp only [rawInsert, if_neg h, sumLens, List.map_cons, List.sum_cons] at ih ⊢
      omega

theorem rawInsert_lists_ne_nil {raw : List (String × List ℚ)} {u : String}
    {t : ℚ} (h : ∀ p ∈ raw, p.2 ≠ []) :
    ∀ p ∈ rawInsert raw u t, p.2 ≠ [] := by
  induction raw with
  | nil => simp [rawInsert]
  | cons q rest ih =>
    obtain ⟨v, ts⟩ := q
    intro p hp
    by_cases hv : v = u
    · simp only [rawInsert, if_pos hv, List.mem_cons] at hp
      rcases hp with h1 | h2
      · subst h1; simp
      · exact h p (List.mem_cons_of_mem _ h2)
    · simp only [rawInsert, if_neg hv, List.mem_cons] at hp
      rcases hp with h1 | h2
      · subst h1; exact h (v, ts) (List.mem_cons_self _ _)
      · exact ih (fun q hq => h q (List.mem_cons_of_mem _ hq)) p h2

theorem pl_fold_spec (lines : List String) :
    (pl_fold lines).2.2 = lines.length ∧
    sumLens (pl_fold lines).1 = (pl_fold lines).2.1 ∧
    (∀ p ∈ (pl_fold lines).1, p.2 ≠ []) := by
  suffices h : ∀ (init : List (String × List ℚ) × ℕ × ℕ),
      sumLens init.1 = init.2.1 → (∀ p ∈ init.1, p.2 ≠ []) →
      (lines.foldl plStep init).2.2 = init.2.2 + lines.length ∧
      sumLens (lines.foldl plStep init).1 = (lines.foldl plStep init).2.1 ∧
      (∀ p ∈ (lines.foldl plStep init).1, p.2 ≠ []) by
    have := h ([], 0, 0) (by simp [sumLens]) (by simp)
    simpa [pl_fold] using this
  induction lines with
  | nil => intro init h1 h2; exact ⟨by simp, h1, h2⟩
  | cons l ls ih =>
    intro init h1 h2
    simp only [List.foldl_cons, List.length_cons]
    have hstep : sumLens (plStep init l).1 = (plStep init l).2.1 ∧
        (∀ p ∈ (plStep init l).1, p.2 ≠ []) ∧
        (plStep init l).2.2 = init.2.2 + 1 := by
      unfold plStep
      rcases hu : extract_url l with _ | u <;> rcases ht : extract_time l with _ | t
      · exact ⟨h1, h2, rfl⟩
      · exact ⟨h1, h2, rfl⟩
      · exact ⟨h1, h2, rfl⟩
      · refine ⟨?_, rawInsert_lists_ne_nil h2, rfl⟩
        simp [sumLens_rawInsert, h1]
    obtain ⟨hs1, hs2, hs3⟩ := hstep
    obtain ⟨g1, g2, g3⟩ := ih (plStep init l) hs1 hs2
    exact ⟨by omega, g2, g3⟩

theorem sumLens_pos_ne_nil {raw : List (String × List ℚ)}
    (h : 0 < sumLens raw) : raw ≠ [] := by
  intro hnil; subst hnil; simp [sumLens] at h

theorem map_sum_div (l : List ℚ) (c : ℚ) :
    (l.map (fun x => x / c)).sum = l.sum / c := by
  induction l with
  | nil => simp
  | cons x xs ih => simp [ih, add_div]

theorem filter_orderedInsert (t : ℚ) (a : StatRow) (l : List StatRow) :
    (List.orderedInsert (fun x y => y.time_sum ≤ x.time_sum) a l).filter
        (fun x => decide (x.time_sum = t)) =
      ((a :: l).filter (fun x => decide (x.time_sum = t))) := by
  induction l with
  | nil => rfl
  | cons b bs ih =>
    by_cases hr : b.time_sum ≤ a.time_sum
    · simp [List.orderedInsert, hr]
    · have hlt : a.time_sum < b.time_sum := lt_of_not_le hr
      simp only [List.orderedInsert, if_neg hr]
      by_cases hb : b.time_sum = t <;> by_cases ha : a.time_sum = t
      · exact absurd (ha ▸ hb) (ne_of_gt hlt)
      · simp only [List.filter_cons, decide_eq_true_eq, hb, ha] at ih ⊢
        simp [hb, ha, ih]
      · simp only [List.filter_cons, decide_eq_true_eq, hb, ha] at ih ⊢
        simp [hb, ha, ih]
      · simp only [List.filter_cons, decide_eq_true_eq, hb, ha] at ih ⊢
        simp [hb, ha, ih]

theorem filter_sortDescStat (t : ℚ) (l : List StatRow) :
    (sortDescStat l).filter (fun x => decide (x.time_sum = t)) =
      l.filter (fun x => decide (x.time_sum = t)) := by
  induction l with
  | nil => rfl
  | cons a as ih =>
    unfold sortDescStat at ih ⊢
    simp only [List.insertionSort]
    rw [filter_orderedInsert]
    simp only [List.filter_cons]
    rw [ih]

/-- The date carried by a locator result: the entry's date, else the
running minimum. -/
def optDate : Option LogFileEntry → Date → Date
  | some e, _ => e.date
  | none, d => d

theorem findAux_spec (logDir : String) (fs : List String) :
    ∀ (minD : Date) (found : Option LogFileEntry),
      allValidB fs = true →
      (∀ e, found = some e → GoodEntry logDir e ∧ e.date = minD) →
      ∃ r, findLatestAux logDir fs minD found = .ok r ∧
        (∀ e, r = some e → GoodEntry logDir e ∧ (e.name ∈ fs ∨ found = some e)) ∧
        (∀ d ∈ matchDates fs, dateLe d (optDate r minD)) ∧
        dateLe minD (optDate r minD) ∧
        (r = none → found = none) := by
  induction fs with
  | nil =>
    intro minD found _ hfound
    refine ⟨found, rfl, fun e he => ⟨(hfound e he).1, Or.inr he⟩, ?_, ?_, fun h => h⟩
    · intro d hd; simp [matchDates] at hd
    · rcases hf : found with _ | e
      · exact Or.inr rfl
      · exact Or.inr ((hfound e hf).2.symm)
  | cons f fs ih =>
    intro minD found hval hfound
    have hvf : (match matchLogName f with
        | none => true
        | some pr => (parseDate pr.1).isSome) = true ∧ allValidB fs = true := by
      simpa [allValidB, List.all_cons] using hval
    rcases hm : matchLogName f with _ | ⟨d8, ext⟩
    · -- non-matching file: skipped
      obtain ⟨r, hr, h2, h3, h4, h5⟩ := ih minD found hvf.2 hfound
      refine ⟨r, ?_, ?_, ?_, h4, h5⟩
      · simpa [findLatestAux, hm] using hr
      · exact fun e he => ⟨(h2 e he).1,
          (h2 e he).2.imp (List.mem_cons_of_mem f) id⟩
      · intro d hd
        apply h3
        simpa [matchDates, hm] using hd
    · -- matching file: a valid date by hval
      have hsome : (parseDate d8).isSome := by
        have := hvf.1; rw [hm] at this; simpa using this
      obtain ⟨dt, hdt⟩ := Option.isSome_iff_exists.mp hsome
      have hmd : matchDates (f :: fs) = dt :: matchDates fs := by
        simp [matchDates, hm, hdt]
      by_cases hlt : dateLt minD dt
      · -- new maximum
        have hgood : GoodEntry logDir ⟨logDir ++ "/" ++ f, f, ext, dt⟩ :=
          ⟨d8, ext, hm, hdt, rfl, rfl⟩
        obtain ⟨r, hr, h2, h3, h4, h5⟩ := ih dt (some ⟨logDir ++ "/" ++ f, f, ext, dt⟩)
          hvf.2 (fun e he => ⟨by rw [← Option.some_inj.mp he]; exact hgood,
            by rw [← Option.some_inj.mp he]⟩)
        rcases hre : r with _ | e
        · exact absurd (h5 hre) (by simp)
        · subst hre
          refine ⟨some e, ?_, ?_, ?_, ?_, by simp⟩
          · simpa [findLatestAux, hm, hdt, hlt] using hr
          · intro e2 he2
            have heq : e = e2 := Option.some_inj.mp he2
            subst heq
            rcases (h2 e rfl).2 with hmem | heq2
            · exact ⟨(h2 e rfl).1, Or.inl (List.mem_cons_of_mem f hmem)⟩
            · obtain rfl := Option.some_inj.mp heq2
              exact ⟨(h2 _ rfl).1, Or.inl (List.mem_cons_self _ _)⟩
          · intro d hd
            rw [hmd] at hd
            rcases List.mem_cons.mp hd with rfl | hdm
            · exact h4
            · exact h3 d hdm
          · exact dateLe_trans (dateLt_le hlt) h4
      · -- current maximum stands
        obtain ⟨r, hr, h2, h3, h4, h5⟩ := ih minD found hvf.2 hfound
        refine ⟨r, ?_, ?_, ?_, h4, h5⟩
        · simpa [findLatestAux, hm, hdt, hlt] using hr
        · exact fun e he => ⟨(h2 e he).1,
            (h2 e he).2.imp (List.mem_cons_of_mem f) id⟩
        · intro d hd
          rw [hmd] at hd
          rcases List.mem_cons.mp hd with rfl | hdm
          · have : dateLe d minD := (dateLt_total minD d).resolve_left hlt
            exact dateLe_trans this h4
          · exact h3 d hdm

theorem dateLt_not_le {a b : Date} (h : dateLt a b) (h2 : dateLe b a) :
    False := by
  obtain ⟨x, y, z⟩ := a; obtain ⟨u, v, w⟩ := b
  simp only [dateLt, dateLe, Date.mk.injEq] at h h2
  omega

/-! ### Claim theorems -/

/-- C3 counterexample: the file name `nginx-access-ui.log-00010101` matches
the fixed pattern (and its date parses), yet `find_latest_log` returns
none on a listing containing only it — the loop's strict comparison
`f_date > datetime.min.date()` rejects the minimal date 0001-01-01 — so
the locator does not return an entry of maximal embedded date for every
listing with a matching file. -/
theorem find_latest_log_min_date_cx :
    matchLogName "nginx-access-ui.log-00010101" = some ("00010101", none) ∧
    parseDate "00010101" = some ⟨1, 1, 1⟩ ∧
    find_latest_log "./log" ["nginx-access-ui.log-00010101"] =
      Except.ok none := by
  refine ⟨by decide, by decide, by rfl⟩

/-- C3 (amended): provided every file name matching the pattern embeds a
valid calendar date, and some matching file's date is strictly later than
0001-01-01, `find_latest_log` returns an entry built from a matching file
of the listing whose embedded date is maximal among all matching files;
and it returns none when zero file names match the pattern. -/
theorem find_latest_log_max (logDir : String) (listing : List String)
    (hval : allValidB listing = true) :
    ((∃ d ∈ matchDates listing, dateLt ⟨1, 1, 1⟩ d) →
      ∃ e, find_latest_log logDir listing = Except.ok (some e) ∧
        GoodEntry logDir e ∧ e.name ∈ listing ∧
        ∀ d ∈ matchDates listing, dateLe d e.date) ∧
    ((∀ f ∈ listing, matchLogName f = none) →
      find_latest_log logDir listing = Except.ok none) := by
  obtain ⟨r, hr, h2, h3, h4, h5⟩ :=
    findAux_spec logDir listing ⟨1, 1, 1⟩ none hval (by simp)
  constructor
  · rintro ⟨d, hd, hdlt⟩
    rcases hrr : r with _ | e
    · subst hrr
      exact absurd (h3 d hd) (fun hle => dateLt_not_le hdlt hle)
    · subst hrr
      refine ⟨e, hr, (h2 e rfl).1, ?_, fun d2 hd2 => h3 d2 hd2⟩
      rcases (h2 e rfl).2 with hmem | habs
      · exact hmem
      · exact absurd habs (by simp)
  · intro hno
    rcases hrr : r with _ | e
    · subst hrr; exact hr
    · subst hrr
      obtain ⟨d8, ext, hmatch, -⟩ := (h2 e rfl).1
      rcases (h2 e rfl).2 with hmem | habs
      · exact absurd hmatch (by simp [hno e.name hmem])
      · exact absurd habs (by simp)

/-- C3 witness: a concrete listing where the amended maximality claim and
the no-match claim are both discharged. -/
theorem find_latest_log_max_witness :
    allValidB ["nginx-access-ui.log-20211205.gz", "other.txt",
      "nginx-access-ui.log-20211207"] = true ∧
    (∃ d ∈ matchDates ["nginx-access-ui.log-20211205.gz", "other.txt",
      "nginx-access-ui.log-20211207"], dateLt ⟨1, 1, 1⟩ d) ∧
    (∃ e, find_latest_log "./log" ["nginx-access-ui.log-20211205.gz",
        "other.txt", "nginx-access-ui.log-20211207"] = Except.ok (some e) ∧
      GoodEntry "./log" e ∧ e.name ∈ ["nginx-access-ui.log-20211205.gz",
        "other.txt", "nginx-access-ui.log-20211207"] ∧
      ∀ d ∈ matchDates ["nginx-access-ui.log-20211205.gz", "other.txt",
        "nginx-access-ui.log-20211207"], dateLe d e.date) ∧
    (∀ f ∈ ["foo.txt"], matchLogName f = none) ∧
    find_latest_log "./log" ["foo.txt"] = Except.ok none :=
  ⟨by decide, by decide,
   (find_latest_log_max "./log" _ (by decide)).1 (by decide),
   by decide,
   (find_latest_log_max "./log" ["foo.txt"] (by decide)).2 (by decide)⟩

/-- C6 counterexample: `nginx-access-ui.log-20211399` matches the literal
prefix plus 8 digits, but month 13 is not a valid calendar date, and
`find_latest_log` raises `ValueError` from `strptime` (modelled as
`Except.error ()`) instead of ignoring the file. -/
theorem find_latest_log_invalid_date_cx :
    matchLogName "nginx-access-ui.log-20211399" =
      some ("20211399", none) ∧
    find_latest_log "./log" ["nginx-access-ui.log-20211399"] =
      Except.error () :=
  ⟨by decide, by rfl⟩

/-- C6 (amended): a file whose name does not match the fixed pattern is
ignored without error — candidate selection over the rest of the listing
is unaffected by its presence; a file matching the pattern whose 8 digits
are not a valid calendar date is however not ignored: it raises an error
that aborts candidate selection. -/
theorem find_latest_log_skips_nonmatching (logDir f : String)
    (fs : List String) (h : matchLogName f = none) :
    find_latest_log logDir (f :: fs) = find_latest_log logDir fs := by
  simp [find_latest_log, findLatestAux, h]

/-- C6 witness: a concrete non-matching file name is skipped. -/
theorem find_latest_log_skips_nonmatching_witness :
    matchLogName "report.txt" = none ∧
    find_latest_log "./log" ["report.txt", "nginx-access-ui.log-20211207"] =
      find_latest_log "./log" ["nginx-access-ui.log-20211207"] :=
  ⟨by decide,
   find_latest_log_skips_nonmatching "./log" "report.txt" _ (by decide)⟩

/-- C5: `create_report` serializes exactly the first N rows of the stat
collection under the descending stable sort by `time_sum`: the serialized
list is the N-prefix of a permutation of the input that is sorted by
`time_sum` descending and in which rows of any given `time_sum` keep their
relative input (Aggregator insertion) order; the report file name is
`report-YYYY.MM.DD` plus the template's `.html` extension inside the
report directory. -/
theorem create_report_spec (rows : List StatRow) (n : ℕ) (dir : String)
    (d : Date) :
    create_report_data rows n = (sortDescStat rows).take n ∧
    (sortDescStat rows).Perm rows ∧
    (sortDescStat rows).Pairwise (fun a b => b.time_sum ≤ a.time_sum) ∧
    (∀ t : ℚ, (sortDescStat rows).filter (fun x => decide (x.time_sum = t)) =
      rows.filter (fun x => decide (x.time_sum = t))) ∧
    report_out_name dir d = dir ++ "/report-" ++ formatDate d ++ ".html" :=
  ⟨rfl, List.perm_insertionSort _ rows, List.sorted_insertionSort _ rows,
   fun t => filter_sortDescStat t rows, rfl⟩

theorem report_names_agree (dir : String) (d : Date) :
    report_out_name dir d = dir ++ "/" ++ report_check_name d := by
  have h1 : ("/report-" : String) = "/" ++ "report-" := by decide
  simp only [report_out_name, report_check_name, String.append_assoc, h1]

/-- Inversion of `main_run`: a run that wrote a report went through the
whole pipeline, and the file it wrote is the dated report name. -/
theorem main_run_inv (listing : List String) (content : String → List String)
    (maxErr : ℚ) (size : ℕ) (logDir reportDir : String) (fs : List String)
    (w : String × List StatRow)
    (h : (main_run listing content maxErr size logDir reportDir fs).written
      = some w) :
    ∃ e raw rows, find_latest_log logDir listing = Except.ok (some e) ∧
      is_report_exsist reportDir e.date fs = false ∧
      process_log (log_reader_lines (content e.name)) maxErr = .ok raw ∧
      raw.isEmpty = false ∧ process_raw raw = some rows ∧
      main_run listing content maxErr size logDir reportDir fs =
        ⟨.completed, true, some (report_out_name reportDir e.date,
          create_report_data rows size)⟩ ∧
      w.1 = report_out_name reportDir e.date := by
  unfold main_run at h
  split at h
  · simp at h
  · simp at h
  case _ e heq =>
    rw [show (if is_report_exsist reportDir e.date fs then
        (⟨.reportExists, false, none⟩ : MainRun)
      else _) = _ from rfl] at h
    by_cases hex : is_report_exsist reportDir e.date fs
    · rw [if_pos hex] at h; simp at h
    · rw [if_neg hex] at h
      split at h
      · simp at h
      · simp at h
      case _ raw hpl =>
        by_cases hemp : raw.isEmpty
        · rw [if_pos hemp] at h; simp at h
        · rw [if_neg hemp] at h
          split at h
          · simp at h
          case _ rows hpr =>
            simp only [Option.some_inj] at h
            exact ⟨e, raw, rows, heq, eq_false_of_ne_true hex, hpl,
              eq_false_of_ne_true hemp, hpr,
              by unfold main_run
                 rw [heq]
                 simp only [if_neg hex, hpl, if_neg hemp, hpr],
              by rw [← h]⟩

/-- C4: invoking report generation twice for the same report date performs
the write exactly once: if a first run wrote a report file, a second run
over the same inputs, seeing that file, short-circuits in
`is_report_exsist`, returns the `ReportAlreadyExists` outcome, writes
nothing, and leaves the set of report files unchanged. -/
theorem report_idempotent (listing : List String)
    (content : String → List String) (maxErr : ℚ) (size : ℕ)
    (logDir reportDir : String) (fs : List String) (w : String × List StatRow)
    (h : (main_run listing content maxErr size logDir reportDir fs).written
      = some w) :
    (main_run listing content maxErr size logDir reportDir
        (after_run fs (main_run listing content maxErr size logDir reportDir
          fs))).outcome = MainOutcome.reportExists ∧
    (main_run listing content maxErr size logDir reportDir
        (after_run fs (main_run listing content maxErr size logDir reportDir
          fs))).written = none ∧
    after_run (after_run fs (main_run listing content maxErr size logDir
        reportDir fs))
      (main_run listing content maxErr size logDir reportDir
        (after_run fs (main_run listing content maxErr size logDir reportDir
          fs))) =
      after_run fs (main_run listing content maxErr size logDir reportDir
        fs) := by
  obtain ⟨e, raw, rows, heq, hex, hpl, hemp, hpr, hrun, hw1⟩ :=
    main_run_inv listing content maxErr size logDir reportDir fs w h
  have hfs1 : after_run fs (main_run listing content maxErr size logDir
      reportDir fs) = report_out_name reportDir e.date :: fs := by
    rw [hrun]; rfl
  have hex2 : is_report_exsist reportDir e.date
      (report_out_name reportDir e.date :: fs) = true := by
    simp [is_report_exsist, report_names_agree]
  have hrun2 : main_run listing content maxErr size logDir reportDir
      (report_out_name reportDir e.date :: fs) =
      ⟨.reportExists, false, none⟩ := by
    unfold main_run
    rw [heq]
    simp only [hex2, if_true]
  rw [hfs1, hrun2]
  exact ⟨rfl, rfl, rfl⟩

theorem process_log_ok (lines : List String) (maxErr : ℚ)
    (ht : (pl_fold lines).2.2 ≠ 0)
    (hgate : ¬((100 : ℚ) - 100 * ((pl_fold lines).2.1 : ℚ) /
      ((pl_fold lines).2.2 : ℚ) > maxErr)) :
    process_log lines maxErr = .ok (pl_fold lines).1 := by
  unfold process_log
  rw [if_neg ht, if_neg hgate]

theorem process_log_exceeded (lines : List String) (maxErr : ℚ)
    (ht : (pl_fold lines).2.2 ≠ 0)
    (hgate : (100 : ℚ) - 100 * ((pl_fold lines).2.1 : ℚ) /
      ((pl_fold lines).2.2 : ℚ) > maxErr) :
    process_log lines maxErr = .thresholdExceeded := by
  unfold process_log
  rw [if_neg ht, if_pos hgate]

theorem sumLens_ne_zero {raw : List (String × List ℚ)} (h1 : raw ≠ [])
    (h2 : ∀ p ∈ raw, p.2 ≠ []) : sumLens raw ≠ 0 := by
  rcases raw with _ | ⟨q, rest⟩
  · exact absurd rfl h1
  · have hq : q.2 ≠ [] := h2 q (List.mem_cons_self _ _)
    have : 0 < q.2.length := List.length_pos.mpr hq
    simp only [sumLens, List.map_cons, List.sum_cons]
    omega

theorem process_raw_some (raw : List (String × List ℚ)) (h1 : raw ≠ [])
    (h2 : ∀ p ∈ raw, p.2 ≠ []) (h3 : rawSumTime raw ≠ 0) :
    process_raw raw =
      some (raw.map (mkStatRow (sumLens raw) (rawSumTime raw))) := by
  have hne : raw.isEmpty = false := by
    rcases raw with _ | ⟨q, rest⟩
    · exact absurd rfl h1
    · rfl
  have hany : raw.any (fun p => p.2.isEmpty) = false := by
    rw [List.any_eq_false]
    intro p hp
    simpa [List.isEmpty_iff] using h2 p hp
  have hcond : ¬(sumLens raw = 0 ∨ rawSumTime raw = 0 ∨
      raw.any (fun p => p.2.isEmpty) = true) := by
    push_neg
    exact ⟨sumLens_ne_zero h1 h2, h3, by simp [hany]⟩
  unfold process_raw
  rw [hne, if_neg hcond]
  rfl

/-- After locating a fresh log with no existing report, `main` is decided
by the extraction, aggregation and reporting stages. -/
theorem main_run_reportStep (listing : List String)
    (content : String → List String) (maxErr : ℚ) (size : ℕ)
    (logDir reportDir : String) (fs : List String) (e : LogFileEntry)
    (hfind : find_latest_log logDir listing = Except.ok (some e))
    (hrep : is_report_exsist reportDir e.date fs = false) :
    main_run listing content maxErr size logDir reportDir fs =
      (match process_log (log_reader_lines (content e.name)) maxErr with
       | .divByZero => ⟨.crashed, false, none⟩
       | .thresholdExceeded => ⟨.exitNoRaw, false, none⟩
       | .ok raw =>
         if raw.isEmpty then ⟨.exitNoRaw, false, none⟩
         else
           match process_raw raw with
           | none => ⟨.crashed, true, none⟩
           | some rows =>
             ⟨.completed, true,
               some (report_out_name reportDir e.date,
                     create_report_data rows size)⟩) := by
  unfold main_run
  rw [hfind]
  simp only [hrep, Bool.false_eq_true, if_false]

theorem rawSumTime_nonneg {raw : List (String × List ℚ)}
    (h0 : ∀ p ∈ raw, ∀ t ∈ p.2, 0 ≤ t) : 0 ≤ rawSumTime raw := by
  apply List.sum_nonneg
  intro x hx
  obtain ⟨p, hp, rfl⟩ := List.mem_map.mp hx
  exact List.sum_nonneg (h0 p hp)

/-- C2: for a non-empty `raw_data` with every endpoint carrying at least
one sample and positive total latency, `process_raw` succeeds and its rows
satisfy: the `count_perc` values sum to 100, the `time_perc` values sum to
100, `time_sum = time_avg * count` for every row, and there is exactly one
row per endpoint, in insertion order, whose `count`, `time_avg` (arithmetic
mean), `time_max`, `time_med` (median) and `time_sum` come from that
endpoint's sample list. -/
theorem process_raw_invariants (raw : List (String × List ℚ))
    (h1 : raw ≠ []) (h2 : ∀ p ∈ raw, p.2 ≠ []) (h3 : 0 < rawSumTime raw) :
    ∃ rows, process_raw raw = some rows ∧
      (rows.map StatRow.count_perc).sum = 100 ∧
      (rows.map StatRow.time_perc).sum = 100 ∧
      (∀ r ∈ rows, r.time_sum = r.time_avg * (r.count : ℚ)) ∧
      rows.length = raw.length ∧
      List.Forall₂ (fun (r : StatRow) (p : String × List ℚ) =>
        r.url = p.1 ∧ r.count = p.2.length ∧
        r.time_avg = p.2.sum / (p.2.length : ℚ) ∧
        r.time_max = pymax p.2 ∧ r.time_med = pymedian p.2 ∧
        r.time_sum = p.2.sum) rows raw := by
  have hS : (sumLens raw : ℚ) ≠ 0 :=
    Nat.cast_ne_zero.mpr (sumLens_ne_zero h1 h2)
  have hT : rawSumTime raw ≠ 0 := ne_of_gt h3
  refine ⟨raw.map (mkStatRow (sumLens raw) (rawSumTime raw)),
    process_raw_some raw h1 h2 hT, ?_, ?_, ?_, List.length_map _ _, ?_⟩
  · -- count_perc values sum to 100
    have hmap : (raw.map (mkStatRow (sumLens raw) (rawSumTime raw))).map
        StatRow.count_perc =
        (raw.map (fun p => (100 : ℚ) * (p.2.length : ℚ))).map
          (fun x => x / (sumLens raw : ℚ)) := by
      simp [List.map_map, mkStatRow, Function.comp]
    rw [hmap, map_sum_div, List.sum_map_mul_left]
    have hcast : (raw.map (fun p => ((p.2.length : ℕ) : ℚ))).sum =
        ((sumLens raw : ℕ) : ℚ) := by
      rw [sumLens, Nat.cast_list_sum, List.map_map]
      rfl
    rw [hcast, mul_div_assoc, div_self hS, mul_one]
  · -- time_perc values sum to 100
    have hmap : (raw.map (mkStatRow (sumLens raw) (rawSumTime raw))).map
        StatRow.time_perc =
        (raw.map (fun p => (100 : ℚ) * p.2.sum)).map
          (fun x => x / rawSumTime raw) := by
      simp [List.map_map, mkStatRow, Function.comp, mul_div_assoc]
    rw [hmap, map_sum_div, List.sum_map_mul_left]
    have hsum : (raw.map (fun p => p.2.sum)).sum = rawSumTime raw := rfl
    rw [hsum, mul_div_assoc, div_self hT, mul_one]
  · -- time_sum = time_avg * count on every row
    intro r hr
    obtain ⟨p, hp, rfl⟩ := List.mem_map.mp hr
    have hlen : ((p.2.length : ℕ) : ℚ) ≠ 0 :=
      Nat.cast_ne_zero.mpr (List.length_pos.mpr (h2 p hp)).ne'
    exact (div_mul_cancel₀ _ hlen).symm
  · -- one row per endpoint in order, fields from the sample list
    have hgen : ∀ (S : ℕ) (T : ℚ) (l : List (String × List ℚ)),
        List.Forall₂ (fun (r : StatRow) (p : String × List ℚ) =>
          r.url = p.1 ∧ r.count = p.2.length ∧
          r.time_avg = p.2.sum / (p.2.length : ℚ) ∧
          r.time_max = pymax p.2 ∧ r.time_med = pymedian p.2 ∧
          r.time_sum = p.2.sum) (l.map (mkStatRow S T)) l := by
      intro S T l
      induction l with
      | nil => exact List.Forall₂.nil
      | cons p ps ih =>
        exact List.Forall₂.cons ⟨rfl, rfl, rfl, rfl, rfl, rfl⟩ ih
    exact hgen _ _ raw

/-- C2 witness: the aggregation invariants at the repository's own test
sample (`/test` with durations 0.01, 0.02, 0.03). -/
theorem process_raw_invariants_witness :
    ([("/test", [1/100, 2/100, 3/100])] : List (String × List ℚ)) ≠ [] ∧
    (∀ p ∈ ([("/test", [1/100, 2/100, 3/100])] : List (String × List ℚ)),
      p.2 ≠ []) ∧
    0 < rawSumTime [("/test", [1/100, 2/100, 3/100])] ∧
    (∃ rows, process_raw [("/test", [1/100, 2/100, 3/100])] = some rows ∧
      (rows.map StatRow.count_perc).sum = 100 ∧
      (rows.map StatRow.time_perc).sum = 100 ∧
      (∀ r ∈ rows, r.time_sum = r.time_avg * (r.count : ℚ)) ∧
      rows.length = ([("/test", [1/100, 2/100, 3/100])] :
        List (String × List ℚ)).length ∧
      List.Forall₂ (fun (r : StatRow) (p : String × List ℚ) =>
        r.url = p.1 ∧ r.count = p.2.length ∧
        r.time_avg = p.2.sum / (p.2.length : ℚ) ∧
        r.time_max = pymax p.2 ∧ r.time_med = pymedian p.2 ∧
        r.time_sum = p.2.sum) rows [("/test", [1/100, 2/100, 3/100])]) :=
  ⟨by decide, by decide, by norm_num [rawSumTime],
   process_raw_invariants _ (by decide) (by decide)
     (by norm_num [rawSumTime])⟩

/-- C10: on a non-empty `raw_data` (every endpoint with at least one
sample, samples non-negative) in which every latency sample is 0.0, the
total time is zero and `process_raw` fails with the `ZeroDivisionError`
of the `time_perc` division (modelled as `none`); in general the
aggregation succeeds exactly when the total latency is strictly
positive. -/
theorem process_raw_zero_total (raw : List (String × List ℚ))
    (h1 : raw ≠ []) (h2 : ∀ p ∈ raw, p.2 ≠ [])
    (h0 : ∀ p ∈ raw, ∀ t ∈ p.2, 0 ≤ t) :
    ((∀ p ∈ raw, ∀ t ∈ p.2, t = (0 : ℚ)) → process_raw raw = none) ∧
    ((process_raw raw).isSome ↔ 0 < rawSumTime raw) := by
  have hne : raw.isEmpty = false := by
    rcases raw with _ | ⟨q, rest⟩
    · exact absurd rfl h1
    · rfl
  constructor
  · intro hz
    have hT : rawSumTime raw = 0 := by
      apply List.sum_eq_zero
      intro x hx
      obtain ⟨p, hp, rfl⟩ := List.mem_map.mp hx
      exact List.sum_eq_zero (hz p hp)
    unfold process_raw
    rw [hne]
    rw [if_neg (by simp), if_pos (Or.inr (Or.inl hT))]
  · constructor
    · intro hs
      by_contra hnpos
      have hT : rawSumTime raw = 0 :=
        le_antisymm (not_lt.mp hnpos) (rawSumTime_nonneg h0)
      have : process_raw raw = none := by
        unfold process_raw
        rw [hne]
        rw [if_neg (by simp), if_pos (Or.inr (Or.inl hT))]
      rw [this] at hs
      exact absurd hs (by simp)
    · intro hpos
      rw [process_raw_some raw h1 h2 (ne_of_gt hpos)]
      rfl

/-- C10 witness: all-zero samples make `process_raw` fail, and on a
positive sample the success criterion is exactly positive total time. -/
theorem process_raw_zero_total_witness :
    (∀ p ∈ ([("/a", [(0 : ℚ)]), ("/b", [0, 0])] : List (String × List ℚ)),
      ∀ t ∈ p.2, t = (0 : ℚ)) ∧
    process_raw [("/a", [(0 : ℚ)]), ("/b", [0, 0])] = none ∧
    ((process_raw [("/test", [(1 : ℚ)/100])]).isSome ↔
      0 < rawSumTime [("/test", [(1 : ℚ)/100])]) :=
  ⟨by norm_num,
   (process_raw_zero_total _ (by decide) (by decide) (by norm_num)).1
     (by norm_num),
   (process_raw_zero_total _ (by decide) (by decide) (by norm_num)).2⟩

theorem main_run_exceeded_case (listing : List String)
    (content : String → List String) (maxErr : ℚ) (size : ℕ)
    (logDir reportDir : String) (fs : List String) (e : LogFileEntry)
    (hfind : find_latest_log logDir listing = Except.ok (some e))
    (hrep : is_report_exsist reportDir e.date fs = false)
    (hpl : process_log (log_reader_lines (content e.name)) maxErr =
      .thresholdExceeded) :
    main_run listing content maxErr size logDir reportDir fs =
      ⟨.exitNoRaw, false, none⟩ := by
  rw [main_run_reportStep listing content maxErr size logDir reportDir fs e
    hfind hrep, hpl]

theorem main_run_empty_case (listing : List String)
    (content : String → List String) (maxErr : ℚ) (size : ℕ)
    (logDir reportDir : String) (fs : List String) (e : LogFileEntry)
    (hfind : find_latest_log logDir listing = Except.ok (some e))
    (hrep : is_report_exsist reportDir e.date fs = false)
    (hpl : process_log (log_reader_lines (content e.name)) maxErr =
      .ok []) :
    main_run listing content maxErr size logDir reportDir fs =
      ⟨.exitNoRaw, false, none⟩ := by
  rw [main_run_reportStep listing content maxErr size logDir reportDir fs e
    hfind hrep, hpl]
  rfl

theorem main_run_divzero_case (listing : List String)
    (content : String → List String) (maxErr : ℚ) (size : ℕ)
    (logDir reportDir : String) (fs : List String) (e : LogFileEntry)
    (hfind : find_latest_log logDir listing = Except.ok (some e))
    (hrep : is_report_exsist reportDir e.date fs = false)
    (hpl : process_log (log_reader_lines (content e.name)) maxErr =
      .divByZero) :
    main_run listing content maxErr size logDir reportDir fs =
      ⟨.crashed, false, none⟩ := by
  rw [main_run_reportStep listing content maxErr size logDir reportDir fs e
    hfind hrep, hpl]

theorem main_run_completed_case (listing : List String)
    (content : String → List String) (maxErr : ℚ) (size : ℕ)
    (logDir reportDir : String) (fs : List String) (e : LogFileEntry)
    (raw : List (String × List ℚ)) (rows : List StatRow)
    (hfind : find_latest_log logDir listing = Except.ok (some e))
    (hrep : is_report_exsist reportDir e.date fs = false)
    (hpl : process_log (log_reader_lines (content e.name)) maxErr = .ok raw)
    (hemp : raw.isEmpty = false)
    (hpr : process_raw raw = some rows) :
    main_run listing content maxErr size logDir reportDir fs =
      ⟨.completed, true,
        some (report_out_name reportDir e.date,
              create_report_data rows size)⟩ := by
  rw [main_run_reportStep listing content maxErr size logDir reportDir fs e
    hfind hrep, hpl]
  show (if raw.isEmpty = true then (⟨.exitNoRaw, false, none⟩ : MainRun)
    else match process_raw raw with
      | none => ⟨.crashed, true, none⟩
      | some rows =>
        ⟨.completed, true,
          some (report_out_name reportDir e.date,
                create_report_data rows size)⟩) = _
  rw [hemp, hpr]
  rfl

/-- C1 counterexample: one input line (no line parses), threshold 100:
`errors_percent = 100` is exactly equal to `MAX_ERRORS_PERCENT`, the gate
lets the run through (`process_log` returns its raw data, not the
threshold failure), yet `main` exits at the falsy-check on the empty raw
data without performing aggregation or report writing — refuting the
claim that exact equality always proceeds to aggregation and report
writing. -/
theorem threshold_equality_cx :
    (log_reader_lines ["x"]).length = 1 ∧
    (pl_fold (log_reader_lines ["x"])).2.1 = 0 ∧
    (100 : ℚ) - 100 * ((pl_fold (log_reader_lines ["x"])).2.1 : ℚ) /
      ((pl_fold (log_reader_lines ["x"])).2.2 : ℚ) = 100 ∧
    process_log (log_reader_lines ["x"]) 100 = .ok [] ∧
    main_run ["nginx-access-ui.log-20211207"] (fun _ => ["x"]) 100 1000
      "./log" "./reports" [] = ⟨.exitNoRaw, false, none⟩ := by
  have hfold : pl_fold (log_reader_lines ["x"]) = ([], 0, 1) := rfl
  have hpl : process_log (log_reader_lines ["x"]) 100 = .ok [] := by
    have := process_log_ok (log_reader_lines ["x"]) 100
      (by rw [hfold]; norm_num) (by rw [hfold]; norm_num)
    rwa [hfold] at this
  exact ⟨rfl, rfl, by rw [hfold]; norm_num, hpl,
    main_run_empty_case ["nginx-access-ui.log-20211207"] (fun _ => ["x"])
      100 1000 "./log" "./reports" []
      ⟨"./log/nginx-access-ui.log-20211207", "nginx-access-ui.log-20211207",
        none, ⟨2021, 12, 7⟩⟩ rfl (by decide) hpl⟩

/-- C1 (amended): once `main` has located a fresh log (and the reader
yields at least one line): if `errors_percent` is strictly greater than
the configured maximum, the extraction stage returns the threshold
failure and the run ends with no aggregation and no report write; if
`errors_percent` is exactly equal to the maximum, the gate passes and —
provided at least one line parsed and the parsed samples have non-zero
total latency — the run proceeds to aggregation and report writing. -/
theorem threshold_gate (listing : List String)
    (content : String → List String) (maxErr : ℚ) (size : ℕ)
    (logDir reportDir : String) (fs : List String) (e : LogFileEntry)
    (hfind : find_latest_log logDir listing = Except.ok (some e))
    (hrep : is_report_exsist reportDir e.date fs = false)
    (htot : log_reader_lines (content e.name) ≠ []) :
    ((100 : ℚ) - 100 *
        ((pl_fold (log_reader_lines (content e.name))).2.1 : ℚ) /
        ((pl_fold (log_reader_lines (content e.name))).2.2 : ℚ) > maxErr →
      main_run listing content maxErr size logDir reportDir fs =
        ⟨.exitNoRaw, false, none⟩) ∧
    ((100 : ℚ) - 100 *
        ((pl_fold (log_reader_lines (content e.name))).2.1 : ℚ) /
        ((pl_fold (log_reader_lines (content e.name))).2.2 : ℚ) = maxErr →
      0 < (pl_fold (log_reader_lines (content e.name))).2.1 →
      rawSumTime (pl_fold (log_reader_lines (content e.name))).1 ≠ 0 →
      ∃ rows,
        process_raw (pl_fold (log_reader_lines (content e.name))).1 =
          some rows ∧
        main_run listing content maxErr size logDir reportDir fs =
          ⟨.completed, true,
            some (report_out_name reportDir e.date,
                  create_report_data rows size)⟩) := by
  obtain ⟨hlen, hparsed, hlists⟩ :=
    pl_fold_spec (log_reader_lines (content e.name))
  have ht : (pl_fold (log_reader_lines (content e.name))).2.2 ≠ 0 := by
    rw [hlen]
    simpa [List.length_eq_zero] using htot
  constructor
  · intro hgate
    exact main_run_exceeded_case listing content maxErr size logDir
      reportDir fs e hfind hrep (process_log_exceeded _ _ ht hgate)
  · intro heq hp hT
    have hraw_ne : (pl_fold (log_reader_lines (content e.name))).1 ≠ [] := by
      apply sumLens_pos_ne_nil
      rw [hparsed]
      exact hp
    have hsome := process_raw_some _ hraw_ne hlists hT
    have hemp : (pl_fold (log_reader_lines (content e.name))).1.isEmpty
        = false := by
      rcases hh : (pl_fold (log_reader_lines (content e.name))).1 with _ | _
      · exact absurd hh hraw_ne
      · rfl
    exact ⟨_, hsome,
      main_run_completed_case listing content maxErr size logDir reportDir
        fs e _ _ hfind hrep
        (process_log_ok _ _ ht (by rw [heq]; exact lt_irrefl maxErr))
        hemp hsome⟩

/-- C1 witness: the two gate behaviors at concrete worlds — a 3-line log
with one unparseable line under a 1% threshold aborts with no
aggregation; a 1-line log that parses, under a threshold of exactly 0
(equal to its 0% error rate), completes aggregation and report
writing. -/
theorem threshold_gate_witness :
    (main_run ["nginx-access-ui.log-20211207"]
      (fun _ => ["GET __ HTTP ___", "GET /test HTTP 0.02",
        "GET /test HTTP 0.03"]) 1 1000 "./log" "./reports" [] =
      ⟨.exitNoRaw, false, none⟩) ∧
    (∃ rows,
      process_raw (pl_fold (log_reader_lines
        ((fun _ : String => ["GET /test HTTP 0.02"])
          (⟨"./log/nginx-access-ui.log-20211207",
            "nginx-access-ui.log-20211207", none,
            ⟨2021, 12, 7⟩⟩ : LogFileEntry).name))).1 = some rows ∧
      main_run ["nginx-access-ui.log-20211207"]
        (fun _ => ["GET /test HTTP 0.02"]) 0 1000 "./log" "./reports" [] =
        ⟨.completed, true,
          some (report_out_name "./reports"
              (⟨"./log/nginx-access-ui.log-20211207",
                "nginx-access-ui.log-20211207", none,
                ⟨2021, 12, 7⟩⟩ : LogFileEntry).date,
            create_report_data rows 1000)⟩) := by
  constructor
  · apply (threshold_gate ["nginx-access-ui.log-20211207"]
      (fun _ => ["GET __ HTTP ___", "GET /test HTTP 0.02",
        "GET /test HTTP 0.03"]) 1 1000 "./log" "./reports" []
      ⟨"./log/nginx-access-ui.log-20211207", "nginx-access-ui.log-20211207",
        none, ⟨2021, 12, 7⟩⟩ rfl (by decide) (by decide)).1
    rw [show pl_fold (log_reader_lines ((fun _ : String =>
      ["GET __ HTTP ___", "GET /test HTTP 0.02", "GET /test HTTP 0.03"])
      (⟨"./log/nginx-access-ui.log-20211207",
        "nginx-access-ui.log-20211207", none,
        ⟨2021, 12, 7⟩⟩ : LogFileEntry).name)) =
      ([("/test", [timeValue ['0'] ['0', '2'],
        timeValue ['0'] ['0', '3']])], 2, 3) from rfl]
    norm_num
  · apply (threshold_gate ["nginx-access-ui.log-20211207"]
      (fun _ => ["GET /test HTTP 0.02"]) 0 1000 "./log" "./reports" []
      ⟨"./log/nginx-access-ui.log-20211207", "nginx-access-ui.log-20211207",
        none, ⟨2021, 12, 7⟩⟩ rfl (by decide) (by decide)).2
    · rw [show pl_fold (log_reader_lines ((fun _ : String =>
        ["GET /test HTTP 0.02"])
        (⟨"./log/nginx-access-ui.log-20211207",
          "nginx-access-ui.log-20211207", none,
          ⟨2021, 12, 7⟩⟩ : LogFileEntry).name)) =
        ([("/test", [timeValue ['0'] ['0', '2']])], 1, 1) from rfl]
      norm_num
    · rw [show pl_fold (log_reader_lines ((fun _ : String =>
        ["GET /test HTTP 0.02"])
        (⟨"./log/nginx-access-ui.log-20211207",
          "nginx-access-ui.log-20211207", none,
          ⟨2021, 12, 7⟩⟩ : LogFileEntry).name)) =
        ([("/test", [timeValue ['0'] ['0', '2']])], 1, 1) from rfl]
      norm_num
    · rw [show pl_fold (log_reader_lines ((fun _ : String =>
        ["GET /test HTTP 0.02"])
        (⟨"./log/nginx-access-ui.log-20211207",
          "nginx-access-ui.log-20211207", none,
          ⟨2021, 12, 7⟩⟩ : LogFileEntry).name)) =
        ([("/test", [timeValue ['0'] ['0', '2']])], 1, 1) from rfl]
      have htv : timeValue ['0'] ['0', '2'] = 1/50 := by
        have h0 : digitsToNat ['0'] = 0 := by decide
        have h02 : digitsToNat ['0', '2'] = 2 := by decide
        rw [timeValue, h0, h02]; norm_num
      norm_num [rawSumTime, htv]

/-- C4 witness: a concrete single-log world in which the first run writes
the dated report and the second run is a no-op. -/
theorem report_idempotent_witness :
    (∃ w, (main_run ["nginx-access-ui.log-20211207"]
      (fun _ => ["GET /test HTTP 0.02"]) 50 1000 "./log" "./reports"
      []).written = some w) ∧
    ((main_run ["nginx-access-ui.log-20211207"]
        (fun _ => ["GET /test HTTP 0.02"]) 50 1000 "./log" "./reports"
        (after_run [] (main_run ["nginx-access-ui.log-20211207"]
          (fun _ => ["GET /test HTTP 0.02"]) 50 1000 "./log" "./reports"
          []))).outcome = MainOutcome.reportExists ∧
      (main_run ["nginx-access-ui.log-20211207"]
        (fun _ => ["GET /test HTTP 0.02"]) 50 1000 "./log" "./reports"
        (after_run [] (main_run ["nginx-access-ui.log-20211207"]
          (fun _ => ["GET /test HTTP 0.02"]) 50 1000 "./log" "./reports"
          []))).written = none ∧
      after_run (after_run [] (main_run ["nginx-access-ui.log-20211207"]
          (fun _ => ["GET /test HTTP 0.02"]) 50 1000 "./log" "./reports"
          []))
        (main_run ["nginx-access-ui.log-20211207"]
          (fun _ => ["GET /test HTTP 0.02"]) 50 1000 "./log" "./reports"
          (after_run [] (main_run ["nginx-access-ui.log-20211207"]
            (fun _ => ["GET /test HTTP 0.02"]) 50 1000 "./log" "./reports"
            []))) =
        after_run [] (main_run ["nginx-access-ui.log-20211207"]
          (fun _ => ["GET /test HTTP 0.02"]) 50 1000 "./log" "./reports"
          [])) := by
  have htv : timeValue ['0'] ['0', '2'] = 1/50 := by
    have h0 : digitsToNat ['0'] = 0 := by decide
    have h02 : digitsToNat ['0', '2'] = 2 := by decide
    rw [timeValue, h0, h02]; norm_num
  have hT : rawSumTime [("/test", [timeValue ['0'] ['0', '2']])] ≠ 0 := by
    norm_num [rawSumTime, htv]
  have hpl : process_log (log_reader_lines
      ((fun _ : String => ["GET /test HTTP 0.02"])
        (⟨"./log/nginx-access-ui.log-20211207",
          "nginx-access-ui.log-20211207", none,
          ⟨2021, 12, 7⟩⟩ : LogFileEntry).name)) 50 =
      .ok [("/test", [timeValue ['0'] ['0', '2']])] := by
    have h := process_log_ok (log_reader_lines
      ((fun _ : String => ["GET /test HTTP 0.02"])
        (⟨"./log/nginx-access-ui.log-20211207",
          "nginx-access-ui.log-20211207", none,
          ⟨2021, 12, 7⟩⟩ : LogFileEntry).name)) 50
      (by rw [show pl_fold (log_reader_lines ((fun _ : String =>
          ["GET /test HTTP 0.02"])
          (⟨"./log/nginx-access-ui.log-20211207",
            "nginx-access-ui.log-20211207", none,
            ⟨2021, 12, 7⟩⟩ : LogFileEntry).name)) =
          ([("/test", [timeValue ['0'] ['0', '2']])], 1, 1) from rfl]
          norm_num)
      (by rw [show pl_fold (log_reader_lines ((fun _ : String =>
          ["GET /test HTTP 0.02"])
          (⟨"./log/nginx-access-ui.log-20211207",
            "nginx-access-ui.log-20211207", none,
            ⟨2021, 12, 7⟩⟩ : LogFileEntry).name)) =
          ([("/test", [timeValue ['0'] ['0', '2']])], 1, 1) from rfl]
          norm_num)
    exact h
  have hpr := process_raw_some [("/test", [timeValue ['0'] ['0', '2']])]
    (by decide) (by decide) hT
  have hrun := main_run_completed_case ["nginx-access-ui.log-20211207"]
    (fun _ => ["GET /test HTTP 0.02"]) 50 1000 "./log" "./reports" []
    ⟨"./log/nginx-access-ui.log-20211207", "nginx-access-ui.log-20211207",
      none, ⟨2021, 12, 7⟩⟩
    [("/test", [timeValue ['0'] ['0', '2']])] _ rfl (by decide) hpl rfl hpr
  have hw : (main_run ["nginx-access-ui.log-20211207"]
      (fun _ => ["GET /test HTTP 0.02"]) 50 1000 "./log" "./reports"
      []).written =
      some (report_out_name "./reports"
          (⟨"./log/nginx-access-ui.log-20211207",
            "nginx-access-ui.log-20211207", none,
            ⟨2021, 12, 7⟩⟩ : LogFileEntry).date,
        create_report_data
          ([("/test", [timeValue ['0'] ['0', '2']])].map
            (mkStatRow (sumLens [("/test", [timeValue ['0'] ['0', '2']])])
              (rawSumTime [("/test", [timeValue ['0'] ['0', '2']])]))) 1000)
      := by rw [hrun]
  exact ⟨⟨_, hw⟩,
    report_idempotent ["nginx-access-ui.log-20211207"]
      (fun _ => ["GET /test HTTP 0.02"]) 50 1000 "./log" "./reports" [] _
      hw⟩

/-- C7: on an empty input (zero lines read), `process_log` does not take
an explicitly defined failure path: the division
`100*lines_parsed/lines_count` raises an unguarded `ZeroDivisionError`
(the `divByZero` result), and in the pipeline that exception escapes
`main` and is absorbed by the top-level handler (the `crashed` outcome);
no raw data is produced and no report is written. -/
theorem process_log_empty_input (maxErr : ℚ) :
    process_log [] maxErr = .divByZero ∧
    main_run ["nginx-access-ui.log-20211207"]
      (fun _ => ([] : List String)) maxErr 1000 "./log" "./reports" [] =
      ⟨.crashed, false, none⟩ :=
  ⟨rfl,
   main_run_divzero_case ["nginx-access-ui.log-20211207"]
     (fun _ => ([] : List String)) maxErr 1000 "./log" "./reports" []
     ⟨"./log/nginx-access-ui.log-20211207", "nginx-access-ui.log-20211207",
       none, ⟨2021, 12, 7⟩⟩ rfl (by decide) rfl⟩

/-- C8: no fault outcome is distinguishable to the caller — every way
`main` can end, faults (`crashed` for unhandled exceptions such as
`EmptyInput`/`IOFailure`, `exitNoRaw` for the parse-error-threshold
fault) and benign outcomes alike, terminates the process with exit status
0; concretely, a run whose three lines all fail to parse under a 10%
threshold ends in `exitNoRaw`, with the same exit status as a benign
no-log-found run. -/
theorem faults_masked_exit_zero :
    (∀ o : MainOutcome, process_exit_code o = 0) ∧
    process_exit_code .crashed = process_exit_code .noLogFound ∧
    process_exit_code .exitNoRaw = process_exit_code .reportExists ∧
    main_run ["nginx-access-ui.log-20211207"] (fun _ => ["x", "y", "z"]) 10
      1000 "./log" "./reports" [] = ⟨.exitNoRaw, false, none⟩ := by
  refine ⟨fun o => by cases o <;> rfl, rfl, rfl, ?_⟩
  apply main_run_exceeded_case ["nginx-access-ui.log-20211207"]
    (fun _ => ["x", "y", "z"]) 10 1000 "./log" "./reports" []
    ⟨"./log/nginx-access-ui.log-20211207", "nginx-access-ui.log-20211207",
      none, ⟨2021, 12, 7⟩⟩ rfl (by decide)
  apply process_log_exceeded
  · rw [show pl_fold (log_reader_lines ((fun _ : String => ["x", "y", "z"])
      (⟨"./log/nginx-access-ui.log-20211207",
        "nginx-access-ui.log-20211207", none,
        ⟨2021, 12, 7⟩⟩ : LogFileEntry).name)) = ([], 0, 3) from rfl]
    norm_num
  · rw [show pl_fold (log_reader_lines ((fun _ : String => ["x", "y", "z"])
      (⟨"./log/nginx-access-ui.log-20211207",
        "nginx-access-ui.log-20211207", none,
        ⟨2021, 12, 7⟩⟩ : LogFileEntry).name)) = ([], 0, 3) from rfl]
    norm_num

/-- C9: the `log_reader` generator executes `log.close()` exactly once
when the caller drains the line sequence to exhaustion, but — having no
`try/finally` — executes it zero times when the caller stops early: on a
two-line file, consuming both lines (or asking for more) closes the
handle once, while stopping after the first line never reaches the
`close` call. -/
theorem log_reader_close_trace :
    (log_reader_actions ["a", "b"] 2).count ReaderAction.closeFile = 1 ∧
    (log_reader_actions ["a", "b"] 5).count ReaderAction.closeFile = 1 ∧
    (log_reader_actions ["a", "b"] 1).count ReaderAction.closeFile = 0 ∧
    (log_reader_actions ["a", "b"] 1).count ReaderAction.openFile = 1 := by
  refine ⟨by decide, by decide, by decide, by decide⟩

end LogAnalyzer
